import Mathlib

/-
Verification development for the django-superapp backups app
(superapp/apps/backups): a shallow embedding of the backup pipeline in
src/tasks/backup.py and of the model-layer save logic in
src/models/restore.py, with theorems about the embedded definitions.

External collaborators (Django's app/model registry, the storage backend,
urllib.parse, the clock) are modelled as explicit environment parameters;
parsed JSON is modelled by the inductive type `Json`.
-/

/-- Parsed JSON values, as produced by `json.load`. -/
inductive Json where
  | null : Json
  | bool (b : Bool) : Json
  | num (n : Int) : Json
  | str (s : String) : Json
  | arr (elems : List Json) : Json
  | obj (members : List (String × Json)) : Json

/-- Python truthiness of a parsed-JSON value (`if not field_value`). -/
def Json.falsy : Json → Bool
  | .null => true
  | .bool b => !b
  | .num n => n == 0
  | .str s => s.isEmpty
  | .arr elems => elems.isEmpty
  | .obj members => members.isEmpty

/-- `key in obj` / `obj[key]` on a parsed-JSON dictionary. -/
def jsonLookup (members : List (String × Json)) (key : String) : Option Json :=
  match members with
  | [] => none
  | (k, v) :: rest => if k = key then some v else jsonLookup rest key

/-- Kinds of Django model fields, as far as the extractor distinguishes them:
`isinstance(field, (models.FileField, models.ImageField))`. -/
inductive FieldKind where
  | fileField
  | imageField
  | otherField
deriving DecidableEq

/-- The extractor's `isinstance(field, (models.FileField, models.ImageField))` test. -/
def FieldKind.isFileRef : FieldKind → Bool
  | .fileField => true
  | .imageField => true
  | .otherField => false

/-- Environment of external collaborators used by
`extract_media_files_from_fixture`:
`apps.get_model` (`none` models a raised `LookupError`),
`model._meta.get_field` (`none` models a raised `FieldDoesNotExist`),
`urlparse(u).path`, and `settings.MEDIA_URL` (`none` models the attribute
being absent). -/
structure ExtractEnv where
  getModel : String → String → Option String
  getField : String → String → Option FieldKind
  urlparsePath : String → String
  mediaUrl : Option String

/-- Python `s.startswith(pre)`. -/
def pyStartsWith (s pre : String) : Bool := pre.data.isPrefixOf s.data

/-- Python `s.strip()`: drop leading and trailing whitespace. -/
def pyStrip (s : String) : String :=
  ⟨((s.data.dropWhile Char.isWhitespace).reverse.dropWhile Char.isWhitespace).reverse⟩

/-- Python `s[n:]`: drop the first `n` characters. -/
def pySliceFrom (s : String) (n : Nat) : String := ⟨s.data.drop n⟩

/-- Python `s.lstrip('/')`: drop every leading slash. -/
def lstripSlash (s : String) : String := ⟨s.data.dropWhile (· = '/')⟩

/-- Python `s.strip('/')`: drop every leading and trailing slash. -/
def stripSlash (s : String) : String :=
  ⟨((s.data.dropWhile (· = '/')).reverse.dropWhile (· = '/')).reverse⟩

/-- The path normalization applied to one file-reference field value
(src/tasks/backup.py lines 66-77): URL values are reduced to their path
component, a leading slash is stripped, and a configured `MEDIA_URL`
prefix (stripped of surrounding slashes) is removed. -/
def normalizePath (env : ExtractEnv) (value : String) : String :=
  let fp :=
    if pyStartsWith value "http" then lstripSlash (env.urlparsePath value)
    else lstripSlash value
  match env.mediaUrl with
  | some mu =>
    if mu.isEmpty then fp
    else
      let m := stripSlash mu
      if pyStartsWith fp (m ++ "/") then pySliceFrom fp (m.length + 1) else fp
  | none => fp

/-- `media_files.add(file_path)` on a set modelled as a duplicate-free list. -/
def setAdd (acc : List String) (p : String) : List String :=
  if p ∈ acc then acc else acc ++ [p]

/-- Processing of one `(field_name, field_value)` pair of a fixture record
(src/tasks/backup.py lines 54-85): skip falsy values, look the field up on
the model (a lookup failure is caught and skipped), keep only
file/image fields whose value is a non-blank string, normalize, and add
the result to the set when non-empty. -/
def processFieldValue (env : ExtractEnv) (modelId fieldName : String)
    (value : Json) (acc : List String) : List String :=
  if value.falsy then acc
  else
    match env.getField modelId fieldName with
    | none => acc
    | some kind =>
      if kind.isFileRef then
        match value with
        | .str s =>
          if (pyStrip s).isEmpty then acc
          else
            let fp := normalizePath env s
            if fp.isEmpty then acc else setAdd acc fp
        | _ => acc
      else acc

/-- The extractor's inner loop over `fields.items()`. -/
def processFields (env : ExtractEnv) (modelId : String) :
    List (String × Json) → List String → List String
  | [], acc => acc
  | (fieldName, value) :: rest, acc =>
    processFields env modelId rest (processFieldValue env modelId fieldName value acc)

/-- Splitting of a character list at every occurrence of a separator
character, Python `str.split(sep)` style: `""` splits to `[""]`, and
adjacent separators produce empty pieces. -/
def splitOnChar (c : Char) : List Char → List (List Char)
  | [] => [[]]
  | x :: xs =>
    match splitOnChar c xs with
    | [] => [[x]]
    | piece :: pieces =>
      if x = c then [] :: piece :: pieces else (x :: piece) :: pieces

/-- Python `model_name.split('.')`. -/
def pySplitDot (s : String) : List String :=
  (splitOnChar '.' s.data).map (fun l => ⟨l⟩)

/-- Processing of one element of the fixture list
(src/tasks/backup.py lines 41-89): non-dictionaries and dictionaries
missing `model` or `fields` are skipped; a non-string model name, a model
name not splitting into exactly two dot-separated parts, an unresolvable
model, or a non-dictionary `fields` value all raise inside the outer
`try` and are caught, skipping the record. -/
def processRecord (env : ExtractEnv) (record : Json) (acc : List String) : List String :=
  match record with
  | .obj members =>
    match jsonLookup members "model", jsonLookup members "fields" with
    | some modelVal, some fieldsVal =>
      match modelVal with
      | .str modelName =>
        match pySplitDot modelName with
        | [appLabel, clsName] =>
          match env.getModel appLabel clsName with
          | some modelId =>
            match fieldsVal with
            | .obj fieldMembers => processFields env modelId fieldMembers acc
            | _ => acc
          | none => acc
        | _ => acc
      | _ => acc
    | _, _ => acc
  | _ => acc

/-- The extractor's outer loop over the fixture list. -/
def extractGo (env : ExtractEnv) : List Json → List String → List String
  | [], acc => acc
  | record :: rest, acc => extractGo env rest (processRecord env record acc)

/-- `extract_media_files_from_fixture` (src/tasks/backup.py lines 26-91):
returns the empty set unless the fixture is a list, otherwise folds
`processRecord` over its elements. -/
def extract_media_files_from_fixture (env : ExtractEnv) (fixtureData : Json) : List String :=
  match fixtureData with
  | .arr records => extractGo env records []
  | _ => []

/-- Environment of the storage backend used by `copy_media_files_to_backup`:
`default_storage.exists` (`.error` models a raised exception) and the
whole chunked open/mkdir/read/write copy of one file (`.error` models any
exception raised during the copy). -/
structure StorageEnv where
  existsCheck : String → Except Unit Bool
  copyFile : String → Except Unit Unit

/-- Outcome of the per-path body of the copy loop. -/
inductive CopyOutcome where
  | recordedCopied
  | recordedMissing
deriving DecidableEq

/-- The body of the copy loop for one path
(src/tasks/backup.py lines 115-138): a failing or false existence check,
or any exception during the copy, records the path as missing; only a
completed copy records it as copied. -/
def copyOne (env : StorageEnv) (filePath : String) : CopyOutcome :=
  match env.existsCheck filePath with
  | .error _ => .recordedMissing
  | .ok false => .recordedMissing
  | .ok true =>
    match env.copyFile filePath with
    | .error _ => .recordedMissing
    | .ok _ => .recordedCopied

/-- `copy_media_files_to_backup` (src/tasks/backup.py lines 94-143),
returning the `(copied, missing)` pair of lists built by the loop. -/
def copy_media_files_to_backup (env : StorageEnv) : List String → List String × List String
  | [] => ([], [])
  | filePath :: rest =>
    let result := copy_media_files_to_backup env rest
    match copyOne env filePath with
    | .recordedCopied => (filePath :: result.1, result.2)
    | .recordedMissing => (result.1, filePath :: result.2)

/-- A `datetime` value at microsecond resolution, as returned by
`django.utils.timezone.now()`. -/
structure DateTime where
  year : Nat
  month : Nat
  day : Nat
  hour : Nat
  minute : Nat
  second : Nat
  usec : Nat
deriving DecidableEq

/-- Zero-padded two-digit rendering, as strftime `%m`/`%d`/`%H`/`%M`/`%S`. -/
def pad2 (n : Nat) : String := if n < 10 then "0" ++ toString n else toString n

/-- Zero-padded four-digit rendering of the year, as strftime `%Y`
(zero-padded per the Python `datetime` documentation); rendered through
its two two-digit halves, which agrees with `%04d` for years below
10000. -/
def pad4 (n : Nat) : String := pad2 (n / 100) ++ pad2 (n % 100)

/-- `strftime("%Y%m%d_%H%M%S")`: whole-second resolution, the `usec`
component is dropped. -/
def fmtYMDHMS (t : DateTime) : String :=
  pad4 t.year ++ pad2 t.month ++ pad2 t.day ++ "_" ++
    pad2 t.hour ++ pad2 t.minute ++ pad2 t.second

/-- Zero-padded six-digit rendering of the microsecond component. -/
def pad6 (n : Nat) : String := pad2 (n / 10000) ++ pad2 (n / 100 % 100) ++ pad2 (n % 100)

/-- `datetime.isoformat()` of an aware UTC datetime from `timezone.now()`:
`YYYY-MM-DDTHH:MM:SS[.ffffff]+00:00`, the microsecond part omitted when
zero. -/
def isoformat (t : DateTime) : String :=
  pad4 t.year ++ "-" ++ pad2 t.month ++ "-" ++ pad2 t.day ++ "T" ++
    pad2 t.hour ++ ":" ++ pad2 t.minute ++ ":" ++ pad2 t.second ++
    (if t.usec = 0 then "" else "." ++ pad6 t.usec) ++ "+00:00"

/-- The manifest dictionary written by `create_backup_archive`
(src/tasks/backup.py lines 177-183). -/
structure Manifest where
  backup_type : String
  created_at : String
  json_file : String
  media_directory : String
  format_version : String
deriving DecidableEq

/-- `zipfile` entry contents: `zipf.write(src, arcname)` copies the file at
`src`, `zipf.writestr` embeds the manifest text. -/
inductive EntryContent where
  | fromFile (srcPath : String)
  | manifestText (m : Manifest)
deriving DecidableEq

/-- The manifest built at archive time (src/tasks/backup.py lines 177-183):
`backup_type` is the literal `'data_with_media'`, `created_at` is
`timezone.now().isoformat()`. -/
def backupManifest (now : DateTime) : Manifest :=
  { backup_type := "data_with_media"
    created_at := isoformat now
    json_file := "backup.json"
    media_directory := "media/"
    format_version := "1.0" }

/-- `create_backup_archive` (src/tasks/backup.py lines 146-188).
`mediaFiles` is the filesystem's enumeration (`rglob`) of the regular
files below `backup_dir/media`, as paths relative to that directory.
Returns the archive path and the archive's entries in write order:
the fixture under the fixed name `backup.json` first, then each media
file under `media/`, then the manifest. -/
def create_backup_archive (jsonFilePath backupDir archiveName : String)
    (mediaFiles : List String) (now : DateTime) :
    String × List (String × EntryContent) :=
  (backupDir ++ "/" ++ archiveName ++ ".zip",
    ("backup.json", .fromFile jsonFilePath) ::
      mediaFiles.map (fun rel =>
        ("media/" ++ rel, EntryContent.fromFile (backupDir ++ "/media/" ++ rel))) ++
      [("backup_manifest.json", .manifestText (backupManifest now))])

/-- The persisted `Backup` record's fields touched by `process_backup`
(src/models/backup.py lines 38-48). -/
structure BackupRec where
  started_at : Option DateTime
  finished_at : Option DateTime
  file : Option String
  done : Bool
deriving DecidableEq

/-- Observable effects of a `process_backup` run: tenant-context changes,
database saves of the `Backup` record, and the `self.retry` call of the
`except` branch. -/
inductive PBEvent where
  | unsetTenant
  | setTenant (pk : Nat)
  | dbSave (rec : BackupRec)
  | retryCalled
deriving DecidableEq

/-- Inputs and failure oracle of one `process_backup` run. `failStep`
selects which fallible statement of the `try` body raises (numbered in
source order), `none` meaning a fully successful run:
0 `Backup.objects.get`; 1 the `started_at` save; 2 `call_command`
dumpdata; 3 reading/parsing the fixture; 4 `copy_media_files_to_backup`
(its `mkdir` runs outside the per-file try); 5 `create_backup_archive`;
6 `backup.file.save`; 7 the final `backup.save`. -/
structure PBEnv where
  tenantPk : Option Nat
  btype : String
  startTime : DateTime
  finishTime : DateTime
  failStep : Option Nat

/-- The archive file name built by `process_backup`
(src/tasks/backup.py lines 296-299) with `.zip` appended: the tenant pk
is included exactly when a tenant is set, followed by the backup type and
the finish timestamp at whole-second resolution. -/
def archiveFileName (tenantPk : Option Nat) (btype : String) (finish : DateTime) : String :=
  match tenantPk with
  | some pk => "backup_" ++ toString pk ++ "_" ++ btype ++ "_" ++ fmtYMDHMS finish ++ ".zip"
  | none => "backup_" ++ btype ++ "_" ++ fmtYMDHMS finish ++ ".zip"

/-- The event trace of one `process_backup` run
(src/tasks/backup.py lines 218-328): `unset_current_tenant` first, then
`set_current_tenant` when the backup has a tenant, then the pipeline's
saves; any raise transfers control to the `except` branch, which calls
`self.retry` and returns — there is no `finally`, so no further event
follows a failure. `backup.file.save(..., save=True)` persists the whole
record, including the in-memory `finished_at`, with `done` still false;
the final save then persists `done = true`. -/
def pbTrace (env : PBEnv) : List PBEvent :=
  PBEvent.unsetTenant ::
    (if env.failStep = some 0 then [PBEvent.retryCalled] else
      (match env.tenantPk with
        | some pk => [PBEvent.setTenant pk]
        | none => []) ++
      (if env.failStep = some 1 then [PBEvent.retryCalled] else
        PBEvent.dbSave ⟨some env.startTime, none, none, false⟩ ::
        (if env.failStep = some 2 ∨ env.failStep = some 3 ∨ env.failStep = some 4 ∨
            env.failStep = some 5 ∨ env.failStep = some 6 then [PBEvent.retryCalled] else
          PBEvent.dbSave ⟨some env.startTime, some env.finishTime,
            some (archiveFileName env.tenantPk env.btype env.finishTime), false⟩ ::
          (if env.failStep = some 7 then [PBEvent.retryCalled] else
            [PBEvent.dbSave ⟨some env.startTime, some env.finishTime,
              some (archiveFileName env.tenantPk env.btype env.finishTime), true⟩,
             PBEvent.unsetTenant]))))

/-- The successive externally observable database states of the `Backup`
record during a run: the pending state the record is created in, then the
state after each save of the trace. -/
def observedStates (env : PBEnv) : List BackupRec :=
  ⟨none, none, none, false⟩ ::
    (pbTrace env).filterMap (fun e =>
      match e with
      | .dbSave rec => some rec
      | _ => none)

/-- The tenant context left on the worker after a list of events:
`set_current_tenant pk` installs `pk`, `unset_current_tenant` clears it. -/
def tenantAfter (events : List PBEvent) : Option Nat :=
  events.foldl (fun cur e =>
    match e with
    | .setTenant pk => some pk
    | .unsetTenant => none
    | _ => cur) none

/-- Linearization of a `DateTime` for comparison (all components in
mixed-radix order, microseconds last). -/
def DateTime.linear (t : DateTime) : Nat :=
  ((((t.year * 100 + t.month) * 100 + t.day) * 100 + t.hour) * 100 + t.minute) * 100
      * 1000000 + t.second * 1000000 + t.usec

/-- Clock order on datetimes. -/
def dtLe (t1 t2 : DateTime) : Prop := t1.linear ≤ t2.linear

/-- The `done`-record invariant of the spec: `done = true` implies the
file and `finished_at` are present and `finished_at` is not before
`started_at`. -/
def backupInvariant (r : BackupRec) : Prop :=
  r.done = true →
    r.file.isSome = true ∧ r.finished_at.isSome = true ∧
      ∀ st fi, r.started_at = some st → r.finished_at = some fi → dtLe st fi

/-- The `Restore` record's fields used by `Restore.save`
(src/models/restore.py lines 35-50): its own file and the optionally
linked backup's file. A `FieldFile` is falsy when it has no name, so an
absent file and an empty-named file are both "no file". -/
structure RestoreRec where
  file : Option String
  backupFile : Option (Option String)
deriving DecidableEq

/-- Python truthiness of a `FieldFile`: `bool(file.name)`. -/
def fileFalsy : Option String → Bool
  | none => true
  | some s => s.isEmpty

/-- The resolution step of `Restore.save` (src/models/restore.py
lines 75-77): when a backup is linked and the restore's own file is
falsy, adopt the backup's file. -/
def restoreResolve (r : RestoreRec) : RestoreRec :=
  match r.backupFile with
  | some bf => if fileFalsy r.file then { r with file := bf } else r
  | none => r

/-- `Restore.save` (src/models/restore.py lines 74-80) acting on the
stored row for this record (`none` when the record was never persisted):
resolve the file, then either raise `ValueError` before touching the
database, or persist the resolved record. Returns the save's outcome and
the stored row afterwards. -/
def restoreSave (r : RestoreRec) (stored : Option RestoreRec) :
    Except String RestoreRec × Option RestoreRec :=
  let r1 := restoreResolve r
  if fileFalsy r1.file then (.error "File or backup must be provided.", stored)
  else (.ok r1, some r1)

lemma mem_setAdd {acc : List String} {p q : String} (h : q ∈ setAdd acc p) :
    q ∈ acc ∨ q = p := by
  unfold setAdd at h
  split at h
  · exact .inl h
  · rcases List.mem_append.mp h with h1 | h1
    · exact .inl h1
    · exact .inr (List.mem_singleton.mp h1)

lemma setAdd_nodup {acc : List String} {p : String} (h : acc.Nodup) :
    (setAdd acc p).Nodup := by
  unfold setAdd
  split
  · exact h
  next hp =>
    refine List.nodup_append.mpr ⟨h, List.nodup_singleton p, ?_⟩
    intro a ha hb
    rw [List.mem_singleton.mp hb] at ha
    exact hp ha

lemma mem_processFieldValue {env : ExtractEnv} {modelId fieldName : String}
    {value : Json} {acc : List String} {q : String}
    (h : q ∈ processFieldValue env modelId fieldName value acc) :
    q ∈ acc ∨ ∃ s kind, value = Json.str s ∧
      env.getField modelId fieldName = some kind ∧ kind.isFileRef = true ∧
      s.isEmpty = false ∧ (pyStrip s).isEmpty = false ∧
      (normalizePath env s).isEmpty = false ∧ q = normalizePath env s := by
  unfold processFieldValue at h
  split at h
  · exact .inl h
  next hfalsy =>
    split at h
    · exact .inl h
    next kind hkind =>
      split at h
      next href =>
        split at h
        next s =>
          split at h
          · exact .inl h
          next htrim =>
            dsimp only at h
            split at h
            · exact .inl h
            next hfp =>
              rcases mem_setAdd h with h1 | h1
              · exact .inl h1
              · refine .inr ⟨s, kind, rfl, hkind, href, ?_, ?_, ?_, h1⟩
                · simpa [Json.falsy] using hfalsy
                · simpa using htrim
                · simpa using hfp
        · exact .inl h
      · exact .inl h

lemma processFieldValue_nodup {env : ExtractEnv} {modelId fieldName : String}
    {value : Json} {acc : List String} (h : acc.Nodup) :
    (processFieldValue env modelId fieldName value acc).Nodup := by
  unfold processFieldValue
  split
  · exact h
  split
  · exact h
  split
  · split
    · split
      · exact h
      · dsimp only
        split
        · exact h
        · exact setAdd_nodup h
    · exact h
  · exact h

lemma mem_processFields {env : ExtractEnv} {modelId : String} :
    ∀ {fieldMembers : List (String × Json)} {acc : List String} {q : String},
    q ∈ processFields env modelId fieldMembers acc →
    q ∈ acc ∨ ∃ fieldName s kind, (fieldName, Json.str s) ∈ fieldMembers ∧
      env.getField modelId fieldName = some kind ∧ kind.isFileRef = true ∧
      s.isEmpty = false ∧ (pyStrip s).isEmpty = false ∧
      (normalizePath env s).isEmpty = false ∧ q = normalizePath env s
  | [], acc, q, h => .inl h
  | (fieldName, value) :: rest, acc, q, h => by
    have h0 : q ∈ processFields env modelId rest
        (processFieldValue env modelId fieldName value acc) := h
    rcases mem_processFields h0 with h1 | h1
    · rcases mem_processFieldValue h1 with h2 | h2
      · exact .inl h2
      · rcases h2 with ⟨s, kind, hv, hs⟩
        exact .inr ⟨fieldName, s, kind, by rw [← hv]; exact List.mem_cons_self .., hs⟩
    · rcases h1 with ⟨fn, s, kind, hmem, hs⟩
      exact .inr ⟨fn, s, kind, List.mem_cons_of_mem _ hmem, hs⟩

lemma processFields_nodup {env : ExtractEnv} {modelId : String} :
    ∀ {fieldMembers : List (String × Json)} {acc : List String}, acc.Nodup →
    (processFields env modelId fieldMembers acc).Nodup
  | [], _, h => h
  | (fieldName, value) :: rest, acc, h => by
    show (processFields env modelId rest (processFieldValue env modelId fieldName value acc)).Nodup
    exact processFields_nodup (processFieldValue_nodup h)

/-- Provenance of one extracted path inside a fixture list: it is the
normalization of the value of some resolvable file/image field of some
well-formed record of the list, and that value is a non-empty,
non-blank string. -/
def fieldRefProvenance (env : ExtractEnv) (records : List Json) (p : String) : Prop :=
  ∃ members fieldMembers modelName appLabel clsName modelId fieldName s kind,
    Json.obj members ∈ records ∧
    jsonLookup members "model" = some (Json.str modelName) ∧
    pySplitDot modelName = [appLabel, clsName] ∧
    env.getModel appLabel clsName = some modelId ∧
    jsonLookup members "fields" = some (Json.obj fieldMembers) ∧
    (fieldName, Json.str s) ∈ fieldMembers ∧
    env.getField modelId fieldName = some kind ∧ kind.isFileRef = true ∧
    s.isEmpty = false ∧ (pyStrip s).isEmpty = false ∧
    p.isEmpty = false ∧ p = normalizePath env s

lemma mem_processRecord {env : ExtractEnv} {record : Json} {acc : List String} {q : String}
    (h : q ∈ processRecord env record acc) :
    q ∈ acc ∨ fieldRefProvenance env [record] q := by
  unfold processRecord at h
  split at h
  next members =>
    split at h
    next modelVal fieldsVal hm hf =>
      split at h
      next modelName =>
        split at h
        next appLabel clsName hsplit =>
          split at h
          next modelId hget =>
            split at h
            next fieldMembers =>
              rcases mem_processFields h with h1 | h1
              · exact .inl h1
              · rcases h1 with ⟨fieldName, s, kind, hmem, hgf, href, hse, hst, hne, hq⟩
                exact .inr ⟨members, fieldMembers, modelName, appLabel, clsName, modelId,
                  fieldName, s, kind, List.mem_singleton.mpr rfl, hm, hsplit, hget, hf,
                  hmem, hgf, href, hse, hst, hq ▸ hne, hq⟩
            · exact .inl h
          · exact .inl h
        · exact .inl h
      · exact .inl h
    · exact .inl h
  · exact .inl h

lemma processRecord_nodup {env : ExtractEnv} {record : Json} {acc : List String}
    (h : acc.Nodup) : (processRecord env record acc).Nodup := by
  unfold processRecord
  split
  · split
    · split
      · split
        · split
          · split
            · exact processFields_nodup h
            · exact h
          · exact h
        · exact h
      · exact h
    · exact h
  · exact h

lemma fieldRefProvenance_mono {env : ExtractEnv} {records more : List Json} {q : String}
    (hsub : ∀ r ∈ records, r ∈ more) (h : fieldRefProvenance env records q) :
    fieldRefProvenance env more q := by
  rcases h with ⟨members, fieldMembers, modelName, appLabel, clsName, modelId,
    fieldName, s, kind, hmem, hs⟩
  exact ⟨members, fieldMembers, modelName, appLabel, clsName, modelId,
    fieldName, s, kind, hsub _ hmem, hs⟩

lemma mem_extractGo {env : ExtractEnv} :
    ∀ {records : List Json} {acc : List String} {q : String},
    q ∈ extractGo env records acc → q ∈ acc ∨ fieldRefProvenance env records q
  | [], _, _, h => .inl h
  | record :: rest, acc, q, h => by
    have h0 : q ∈ extractGo env rest (processRecord env record acc) := h
    rcases mem_extractGo h0 with h1 | h1
    · rcases mem_processRecord h1 with h2 | h2
      · exact .inl h2
      · exact .inr (fieldRefProvenance_mono
          (by intro r hr; rw [List.mem_singleton.mp hr]; exact List.mem_cons_self ..) h2)
    · exact .inr (fieldRefProvenance_mono (fun r hr => List.mem_cons_of_mem _ hr) h1)

lemma extractGo_nodup {env : ExtractEnv} :
    ∀ {records : List Json} {acc : List String}, acc.Nodup →
    (extractGo env records acc).Nodup
  | [], _, h => h
  | record :: rest, acc, h => by
    show (extractGo env rest (processRecord env record acc)).Nodup
    exact extractGo_nodup (processRecord_nodup h)

/-- Claim C4: for every fixture document, the result of
`extract_media_files_from_fixture` is a deduplicated set, and every
element of it is the normalization of the non-empty string value of some
resolvable file/image-reference field of some record present in the
fixture. -/
theorem extract_media_files_sound_and_dedup (env : ExtractEnv) (fixtureData : Json) :
    (extract_media_files_from_fixture env fixtureData).Nodup ∧
    ∀ p ∈ extract_media_files_from_fixture env fixtureData,
      ∃ records, fixtureData = Json.arr records ∧ fieldRefProvenance env records p := by
  cases fixtureData with
  | arr records =>
    constructor
    · exact extractGo_nodup List.nodup_nil
    · intro p hp
      rcases mem_extractGo hp with h | h
      · exact absurd h (List.not_mem_nil p)
      · exact ⟨records, rfl, h⟩
  | null => exact ⟨List.nodup_nil, by intro p hp; exact absurd hp (List.not_mem_nil p)⟩
  | bool b => exact ⟨List.nodup_nil, by intro p hp; exact absurd hp (List.not_mem_nil p)⟩
  | num n => exact ⟨List.nodup_nil, by intro p hp; exact absurd hp (List.not_mem_nil p)⟩
  | str s => exact ⟨List.nodup_nil, by intro p hp; exact absurd hp (List.not_mem_nil p)⟩
  | obj members => exact ⟨List.nodup_nil, by intro p hp; exact absurd hp (List.not_mem_nil p)⟩

/-- Claim C8: a record whose model identifier cannot be resolved, and a
field whose lookup on the model fails, are skipped and extraction
continues unchanged with the remaining fields and records; the embedded
extractor is a total function, so a single bad reference never aborts
it. -/
theorem extract_skips_unresolvable (env : ExtractEnv) :
    (∀ members rest acc modelName appLabel clsName,
      jsonLookup members "model" = some (Json.str modelName) →
      pySplitDot modelName = [appLabel, clsName] →
      env.getModel appLabel clsName = none →
      extractGo env (Json.obj members :: rest) acc = extractGo env rest acc) ∧
    (∀ modelId fieldName value rest acc,
      env.getField modelId fieldName = none →
      processFields env modelId ((fieldName, value) :: rest) acc =
        processFields env modelId rest acc) := by
  constructor
  · intro members rest acc modelName appLabel clsName hm hsplit hget
    show extractGo env rest (processRecord env (Json.obj members) acc) = extractGo env rest acc
    congr 1
    unfold processRecord
    dsimp only
    rw [hm]
    cases hf : jsonLookup members "fields" with
    | none => rfl
    | some fieldsVal =>
      dsimp only
      rw [hsplit]
      dsimp only
      rw [hget]
  · intro modelId fieldName value rest acc hget
    show processFields env modelId rest (processFieldValue env modelId fieldName value acc) =
      processFields env modelId rest acc
    congr 1
    unfold processFieldValue
    split
    · rfl
    · rw [hget]

/-- Environment used to instantiate theorems about the extractor on
concrete inputs: no model resolves, no field resolves, `urlparse` path is
the identity, no `MEDIA_URL` configured. -/
def extractEnvNone : ExtractEnv :=
  { getModel := fun _ _ => none
    getField := fun _ _ => none
    urlparsePath := fun u => u
    mediaUrl := none }

theorem extract_skips_unresolvable_witness :
    (jsonLookup [("model", Json.str "shop.product"), ("fields", Json.obj [])] "model" =
        some (Json.str "shop.product") ∧
      pySplitDot "shop.product" = ["shop", "product"] ∧
      extractEnvNone.getModel "shop" "product" = none ∧
      extractGo extractEnvNone
        [Json.obj [("model", Json.str "shop.product"), ("fields", Json.obj [])],
         Json.obj []] ["seed.png"] =
        extractGo extractEnvNone [Json.obj []] ["seed.png"]) ∧
    (extractEnvNone.getField "shop.product" "image" = none ∧
      processFields extractEnvNone "shop.product"
        [("image", Json.str "a.png"), ("title", Json.str "t")] [] =
        processFields extractEnvNone "shop.product" [("title", Json.str "t")] []) := by
  refine ⟨⟨rfl, by decide, rfl, ?_⟩, rfl, ?_⟩
  · exact (extract_skips_unresolvable extractEnvNone).1
      [("model", Json.str "shop.product"), ("fields", Json.obj [])]
      [Json.obj []] ["seed.png"] "shop.product" "shop" "product" rfl (by decide) rfl
  · exact (extract_skips_unresolvable extractEnvNone).2
      "shop.product" "image" (Json.str "a.png") [("title", Json.str "t")] [] rfl

/-- Claim C9: on any parsed-JSON input that is not a list the extractor
returns the empty set, and list elements that are not dictionaries or
lack a `model` or `fields` key are skipped with extraction continuing on
the remaining elements; being a total Lean function over all of `Json`,
the embedded extractor is total over arbitrary parsed-JSON input. -/
theorem extract_total_over_json (env : ExtractEnv) :
    (∀ fixtureData : Json, (∀ elems, fixtureData ≠ Json.arr elems) →
      extract_media_files_from_fixture env fixtureData = []) ∧
    (∀ record rest acc,
      ((∀ members, record ≠ Json.obj members) ∨
        ∃ members, record = Json.obj members ∧
          (jsonLookup members "model" = none ∨ jsonLookup members "fields" = none)) →
      extractGo env (record :: rest) acc = extractGo env rest acc) := by
  constructor
  · intro fixtureData hne
    unfold extract_media_files_from_fixture
    split
    next elems => exact absurd rfl (hne elems)
    · rfl
  · intro record rest acc hbad
    show extractGo env rest (processRecord env record acc) = extractGo env rest acc
    congr 1
    rcases hbad with hbad | ⟨members, rfl, hbad⟩
    · unfold processRecord
      split
      next members => exact absurd rfl (hbad members)
      · rfl
    · unfold processRecord
      dsimp only
      rcases hbad with hbad | hbad
      · rw [hbad]
      · rw [hbad]
        cases jsonLookup members "model" <;> rfl

theorem extract_total_over_json_witness :
    ((∀ elems, Json.str "oops" ≠ Json.arr elems) ∧
      extract_media_files_from_fixture extractEnvNone (Json.str "oops") = []) ∧
    ((∀ members, Json.num 3 ≠ Json.obj members) ∧
      extractGo extractEnvNone [Json.num 3, Json.obj []] ["seed.png"] =
        extractGo extractEnvNone [Json.obj []] ["seed.png"]) ∧
    (jsonLookup [("fields", Json.obj [])] "model" = none ∧
      extractGo extractEnvNone [Json.obj [("fields", Json.obj [])]] [] =
        extractGo extractEnvNone [] []) := by
  have hne1 : ∀ elems, Json.str "oops" ≠ Json.arr elems := fun elems h => Json.noConfusion h
  have hne2 : ∀ members, Json.num 3 ≠ Json.obj members := fun members h => Json.noConfusion h
  refine ⟨⟨hne1, ?_⟩, ⟨hne2, ?_⟩, rfl, ?_⟩
  · exact (extract_total_over_json extractEnvNone).1 (Json.str "oops") hne1
  · exact (extract_total_over_json extractEnvNone).2 (Json.num 3) [Json.obj []]
      ["seed.png"] (.inl hne2)
  · exact (extract_total_over_json extractEnvNone).2 (Json.obj [("fields", Json.obj [])]) [] []
      (.inr ⟨[("fields", Json.obj [])], rfl, .inl rfl⟩)

lemma copyOne_missing (env : StorageEnv) (p : String)
    (h : env.existsCheck p = .error () ∨ env.existsCheck p = .ok false ∨
      env.copyFile p = .error ()) :
    copyOne env p = .recordedMissing := by
  unfold copyOne
  cases he : env.existsCheck p with
  | error u => rfl
  | ok b =>
    cases b with
    | false => rfl
    | true =>
      rcases h with h | h | h
      · rw [he] at h; exact Except.noConfusion h
      · rw [he] at h; simp at h
      · rw [h]

lemma copy_media_perm (env : StorageEnv) :
    ∀ mediaFiles : List String,
      ((copy_media_files_to_backup env mediaFiles).1 ++
        (copy_media_files_to_backup env mediaFiles).2).Perm mediaFiles
  | [] => List.Perm.refl _
  | p :: rest => by
    have ih := copy_media_perm env rest
    cases h : copyOne env p with
    | recordedCopied =>
      simp only [copy_media_files_to_backup, h]
      exact ih.cons p
    | recordedMissing =>
      simp only [copy_media_files_to_backup, h]
      exact List.perm_middle.trans (ih.cons p)

lemma mem_missing_of_bad (env : StorageEnv) :
    ∀ (mediaFiles : List String) (p : String), p ∈ mediaFiles →
      copyOne env p = .recordedMissing →
      p ∈ (copy_media_files_to_backup env mediaFiles).2
  | q :: rest, p, hmem, hbad => by
    rcases List.mem_cons.mp hmem with rfl | hmem
    · simp only [copy_media_files_to_backup, hbad]
      exact List.mem_cons_self ..
    · have ih := mem_missing_of_bad env rest p hmem hbad
      cases h : copyOne env q with
      | recordedCopied => simpa only [copy_media_files_to_backup, h] using ih
      | recordedMissing =>
        simp only [copy_media_files_to_backup, h]
        exact List.mem_cons_of_mem _ ih

/-- Claim C1: `copy_media_files_to_backup` partitions its input reference
set: every input path lands in exactly one of `copied` and `missing`, the
two are disjoint, a path whose existence check raises or returns false or
whose copy raises is recorded as missing, and a failure on one path
leaves the processing of the remaining paths unchanged. -/
theorem copy_media_files_partition (env : StorageEnv) (mediaFiles : List String)
    (hnodup : mediaFiles.Nodup) :
    (∀ p, p ∈ mediaFiles ↔
      p ∈ (copy_media_files_to_backup env mediaFiles).1 ∨
        p ∈ (copy_media_files_to_backup env mediaFiles).2) ∧
    (∀ p, ¬(p ∈ (copy_media_files_to_backup env mediaFiles).1 ∧
      p ∈ (copy_media_files_to_backup env mediaFiles).2)) ∧
    (∀ p ∈ mediaFiles,
      env.existsCheck p = .error () ∨ env.existsCheck p = .ok false ∨
        env.copyFile p = .error () →
      p ∈ (copy_media_files_to_backup env mediaFiles).2) ∧
    (∀ q rest, copyOne env q = .recordedMissing →
      copy_media_files_to_backup env (q :: rest) =
        ((copy_media_files_to_backup env rest).1,
          q :: (copy_media_files_to_backup env rest).2)) := by
  have hperm := copy_media_perm env mediaFiles
  refine ⟨?_, ?_, ?_, ?_⟩
  · intro p
    rw [← hperm.mem_iff, List.mem_append]
  · intro p hp
    have hnd : ((copy_media_files_to_backup env mediaFiles).1 ++
        (copy_media_files_to_backup env mediaFiles).2).Nodup :=
      hperm.nodup_iff.mpr hnodup
    exact (List.disjoint_of_nodup_append hnd) hp.1 hp.2
  · intro p hmem hbad
    exact mem_missing_of_bad env mediaFiles p hmem (copyOne_missing env p hbad)
  · intro q rest hq
    simp only [copy_media_files_to_backup, hq]

/-- Storage backend used to instantiate the materializer theorems:
`c.png`'s existence check raises, `b.png` is absent, everything else
exists and copies cleanly. -/
def storageEnvW : StorageEnv :=
  { existsCheck := fun p =>
      if p = "c.png" then .error () else if p = "b.png" then .ok false else .ok true
    copyFile := fun _ => .ok () }

theorem copy_media_files_partition_witness :
    (["a.png", "b.png", "c.png"].Nodup) ∧
    ("a.png" ∈ ["a.png", "b.png", "c.png"] ↔
      "a.png" ∈ (copy_media_files_to_backup storageEnvW ["a.png", "b.png", "c.png"]).1 ∨
        "a.png" ∈ (copy_media_files_to_backup storageEnvW ["a.png", "b.png", "c.png"]).2) ∧
    (¬("b.png" ∈ (copy_media_files_to_backup storageEnvW ["a.png", "b.png", "c.png"]).1 ∧
      "b.png" ∈ (copy_media_files_to_backup storageEnvW ["a.png", "b.png", "c.png"]).2)) ∧
    ("c.png" ∈ (copy_media_files_to_backup storageEnvW ["a.png", "b.png", "c.png"]).2) ∧
    (copy_media_files_to_backup storageEnvW ("c.png" :: ["x.png"]) =
      ((copy_media_files_to_backup storageEnvW ["x.png"]).1,
        "c.png" :: (copy_media_files_to_backup storageEnvW ["x.png"]).2)) := by
  have h := copy_media_files_partition storageEnvW ["a.png", "b.png", "c.png"] (by decide)
  exact ⟨by decide, h.1 "a.png", h.2.1 "b.png",
    h.2.2.1 "c.png" (by decide) (.inl rfl), h.2.2.2 "c.png" ["x.png"] rfl⟩

/-- Claim C6: the archive produced by `create_backup_archive` stores the
fixture first under the fixed root name `backup.json` (independently of
the staging file's own name), stores every file of the staging media
directory under `media/` preserving its relative path, and writes the
manifest last at the archive root with the fixed fixture name, the fixed
media prefix, the ISO-8601 creation timestamp and format version
`1.0`. -/
theorem create_backup_archive_layout (jsonFilePath backupDir archiveName : String)
    (mediaFiles : List String) (now : DateTime) :
    ((create_backup_archive jsonFilePath backupDir archiveName mediaFiles now).2).head? =
      some ("backup.json", .fromFile jsonFilePath) ∧
    (∀ rel ∈ mediaFiles,
      ("media/" ++ rel, EntryContent.fromFile (backupDir ++ "/media/" ++ rel)) ∈
        (create_backup_archive jsonFilePath backupDir archiveName mediaFiles now).2) ∧
    ((create_backup_archive jsonFilePath backupDir archiveName mediaFiles now).2).getLast? =
      some ("backup_manifest.json", .manifestText
        { backup_type := "data_with_media", created_at := isoformat now,
          json_file := "backup.json", media_directory := "media/",
          format_version := "1.0" }) ∧
    (create_backup_archive jsonFilePath backupDir archiveName mediaFiles now).1 =
      backupDir ++ "/" ++ archiveName ++ ".zip" := by
  refine ⟨rfl, ?_, ?_, rfl⟩
  · intro rel hrel
    unfold create_backup_archive
    exact List.mem_cons_of_mem _ (List.mem_append_left _
      (List.mem_map_of_mem (fun r =>
        ("media/" ++ r, EntryContent.fromFile (backupDir ++ "/media/" ++ r))) hrel))
  · show (("backup.json", EntryContent.fromFile jsonFilePath) ::
      (mediaFiles.map (fun rel =>
        ("media/" ++ rel, EntryContent.fromFile (backupDir ++ "/media/" ++ rel))) ++
        [("backup_manifest.json", .manifestText (backupManifest now))])).getLast? = _
    rw [← List.cons_append, List.getLast?_concat]
    rfl

/-- Claim C10: the manifest's backup kind tag is the fixed constant
`data_with_media` — `backupManifest` takes no input other than the clock,
so it does not depend on the `Backup` record's `type` field, and the
archive's final entry carries exactly this manifest for every input. -/
theorem manifest_backup_type_constant (jsonFilePath backupDir archiveName : String)
    (mediaFiles : List String) (now : DateTime) :
    (backupManifest now).backup_type = "data_with_media" ∧
    (∀ m : Manifest,
      ("backup_manifest.json", EntryContent.manifestText m) ∈
        (create_backup_archive jsonFilePath backupDir archiveName mediaFiles now).2 →
      m.backup_type = "data_with_media") := by
  refine ⟨rfl, ?_⟩
  intro m hm
  unfold create_backup_archive at hm
  rcases List.mem_cons.mp hm with h | h
  · exact absurd (congrArg Prod.snd h) (by simp)
  · rcases List.mem_append.mp h with h | h
    · rcases List.mem_map.mp h with ⟨rel, _, hr⟩
      exact absurd (congrArg Prod.snd hr) (by simp)
    · have := List.mem_singleton.mp h
      have hsnd := congrArg Prod.snd this
      simp only [EntryContent.manifestText.injEq] at hsnd
      rw [hsnd]
      rfl

instance (t1 t2 : DateTime) : Decidable (dtLe t1 t2) :=
  inferInstanceAs (Decidable (t1.linear ≤ t2.linear))

lemma observedStates_cases (env : PBEnv) :
    ∀ r ∈ observedStates env,
      r = ⟨none, none, none, false⟩ ∨
      r = ⟨some env.startTime, none, none, false⟩ ∨
      r = ⟨some env.startTime, some env.finishTime,
        some (archiveFileName env.tenantPk env.btype env.finishTime), false⟩ ∨
      r = ⟨some env.startTime, some env.finishTime,
        some (archiveFileName env.tenantPk env.btype env.finishTime), true⟩ := by
  intro r hr
  obtain ⟨tpk, ty, st, ft, fs⟩ := env
  cases tpk <;>
    simp only [observedStates, pbTrace] at hr <;>
    split_ifs at hr <;>
    simp_all [List.filterMap] <;>
    tauto

/-- Claim C2: at every externally observable database state of the
`Backup` record during a `process_backup` run — the pending state and the
state after each save the run performs — `done = true` implies the file
is present, `finished_at` is present, and `finished_at` is not before
`started_at`; in particular no observable state pairs `done = true` with
a missing file. -/
theorem process_backup_done_invariant (env : PBEnv)
    (hclock : dtLe env.startTime env.finishTime) :
    ∀ r ∈ observedStates env, r.done = true →
      r.file.isSome = true ∧ r.finished_at.isSome = true ∧
        ∀ st fi, r.started_at = some st → r.finished_at = some fi → dtLe st fi := by
  intro r hr hdone
  rcases observedStates_cases env r hr with rfl | rfl | rfl | rfl
  · exact Bool.noConfusion hdone
  · exact Bool.noConfusion hdone
  · exact Bool.noConfusion hdone
  · refine ⟨rfl, rfl, ?_⟩
    intro st fi hst hfi
    have h1 : env.startTime = st := Option.some.inj hst
    have h2 : env.finishTime = fi := Option.some.inj hfi
    rw [← h1, ← h2]
    exact hclock

/-- Concrete run inputs used to instantiate `process_backup` theorems: a
tenant with pk 7, type `all_models`, a run starting at
2025-03-04 05:06:07.000100 and finishing at 05:07:00. -/
def pbEnvOk : PBEnv :=
  { tenantPk := some 7
    btype := "all_models"
    startTime := ⟨2025, 3, 4, 5, 6, 7, 100⟩
    finishTime := ⟨2025, 3, 4, 5, 7, 0, 0⟩
    failStep := none }

theorem process_backup_done_invariant_witness :
    (dtLe pbEnvOk.startTime pbEnvOk.finishTime) ∧
    ((⟨some pbEnvOk.startTime, some pbEnvOk.finishTime,
        some (archiveFileName pbEnvOk.tenantPk pbEnvOk.btype pbEnvOk.finishTime),
        true⟩ : BackupRec) ∈ observedStates pbEnvOk) ∧
    ((⟨some pbEnvOk.startTime, some pbEnvOk.finishTime,
        some (archiveFileName pbEnvOk.tenantPk pbEnvOk.btype pbEnvOk.finishTime),
        true⟩ : BackupRec).file.isSome = true ∧
      (⟨some pbEnvOk.startTime, some pbEnvOk.finishTime,
        some (archiveFileName pbEnvOk.tenantPk pbEnvOk.btype pbEnvOk.finishTime),
        true⟩ : BackupRec).finished_at.isSome = true ∧
      ∀ st fi,
        (⟨some pbEnvOk.startTime, some pbEnvOk.finishTime,
          some (archiveFileName pbEnvOk.tenantPk pbEnvOk.btype pbEnvOk.finishTime),
          true⟩ : BackupRec).started_at = some st →
        (⟨some pbEnvOk.startTime, some pbEnvOk.finishTime,
          some (archiveFileName pbEnvOk.tenantPk pbEnvOk.btype pbEnvOk.finishTime),
          true⟩ : BackupRec).finished_at = some fi → dtLe st fi) := by
  refine ⟨by decide, by decide, ?_⟩
  exact process_backup_done_invariant pbEnvOk (by decide) _ (by decide) rfl

/-- Run inputs whose export step (`call_command`, failure step 2) raises
after the tenant context has been set. -/
def pbEnvFail : PBEnv :=
  { tenantPk := some 7
    btype := "all_models"
    startTime := ⟨2025, 3, 4, 5, 6, 7, 100⟩
    finishTime := ⟨2025, 3, 4, 5, 7, 0, 0⟩
    failStep := some 2 }

/-- Claim C3, evaluated at the failing input: when any statement after
`set_current_tenant` raises (here the export step), the run exits through
the `except` branch — whose last action is `self.retry`, with no
`finally` — leaving the tenant context still set to the tenant's pk; on
the fully successful run the context is cleared. The claim that the
scope is always cleared before exit therefore fails on the code. -/
theorem process_backup_tenant_leak_on_failure :
    tenantAfter (pbTrace pbEnvFail) = some 7 ∧
    (pbTrace pbEnvFail).getLast? = some .retryCalled ∧
    tenantAfter (pbTrace pbEnvOk) = none := by decide

/-- Claim C5: `Restore.save` adopts the linked backup's file when a
backup is linked and the restore has no own file; when the resolved file
is still absent the save raises `ValueError` with the stored row
untouched; when a resolved file exists the save succeeds and persists
the resolved record. -/
theorem restore_save_resolution (r : RestoreRec) (stored : Option RestoreRec) :
    (∀ bf, r.backupFile = some bf → fileFalsy r.file = true →
      restoreResolve r = { r with file := bf }) ∧
    (fileFalsy (restoreResolve r).file = true →
      (restoreSave r stored).1 = .error "File or backup must be provided." ∧
      (restoreSave r stored).2 = stored) ∧
    (fileFalsy (restoreResolve r).file = false →
      (restoreSave r stored).1 = .ok (restoreResolve r) ∧
      (restoreSave r stored).2 = some (restoreResolve r)) := by
  refine ⟨?_, ?_, ?_⟩
  · intro bf hb hf
    unfold restoreResolve
    rw [hb]
    dsimp only
    rw [hf]
    rfl
  · intro hf
    unfold restoreSave
    dsimp only
    rw [hf]
    exact ⟨rfl, rfl⟩
  · intro hf
    unfold restoreSave
    dsimp only
    rw [hf]
    exact ⟨rfl, rfl⟩

theorem restore_save_resolution_witness :
    ((⟨none, some (some "backups/b1.zip")⟩ : RestoreRec).backupFile =
        some (some "backups/b1.zip") ∧
      fileFalsy (⟨none, some (some "backups/b1.zip")⟩ : RestoreRec).file = true ∧
      restoreResolve ⟨none, some (some "backups/b1.zip")⟩ =
        ⟨some "backups/b1.zip", some (some "backups/b1.zip")⟩) ∧
    (fileFalsy (restoreResolve ⟨none, some (some "backups/b1.zip")⟩).file = false ∧
      (restoreSave ⟨none, some (some "backups/b1.zip")⟩ none).1 =
        .ok ⟨some "backups/b1.zip", some (some "backups/b1.zip")⟩ ∧
      (restoreSave ⟨none, some (some "backups/b1.zip")⟩ none).2 =
        some ⟨some "backups/b1.zip", some (some "backups/b1.zip")⟩) ∧
    (fileFalsy (restoreResolve ⟨none, none⟩).file = true ∧
      (restoreSave ⟨none, none⟩ (some ⟨some "old.zip", none⟩)).1 =
        .error "File or backup must be provided." ∧
      (restoreSave ⟨none, none⟩ (some ⟨some "old.zip", none⟩)).2 =
        some ⟨some "old.zip", none⟩) := by
  refine ⟨⟨rfl, rfl, ?_⟩, ⟨rfl, ?_, ?_⟩, ⟨rfl, ?_, ?_⟩⟩
  · exact (restore_save_resolution ⟨none, some (some "backups/b1.zip")⟩ none).1
      (some "backups/b1.zip") rfl rfl
  · exact ((restore_save_resolution ⟨none, some (some "backups/b1.zip")⟩ none).2.2 rfl).1
  · exact ((restore_save_resolution ⟨none, some (some "backups/b1.zip")⟩ none).2.2 rfl).2
  · exact ((restore_save_resolution ⟨none, none⟩
      (some ⟨some "old.zip", none⟩)).2.1 rfl).1
  · exact ((restore_save_resolution ⟨none, none⟩
      (some ⟨some "old.zip", none⟩)).2.1 rfl).2

/-- Bounds under which the `%Y%m%d_%H%M%S` rendering is injective: year
below 10000 and every other component below 100 (true of every real
datetime). -/
def validDT (t : DateTime) : Prop :=
  t.year < 10000 ∧ t.month < 100 ∧ t.day < 100 ∧ t.hour < 100 ∧
    t.minute < 100 ∧ t.second < 100

instance (t : DateTime) : Decidable (validDT t) := by
  unfold validDT
  infer_instance

/-- Two-digit decimal parse, a left inverse of `pad2` below 100. -/
def unpad2 (s : String) : Nat :=
  match s.data with
  | [a, b] => (a.toNat - 48) * 10 + (b.toNat - 48)
  | _ => 0

lemma unpad2_pad2 : ∀ n < 100, unpad2 (pad2 n) = n := by decide

lemma pad2_inj {n m : Nat} (hn : n < 100) (hm : m < 100) (h : pad2 n = pad2 m) :
    n = m := by
  have e1 := unpad2_pad2 n hn
  have e2 := unpad2_pad2 m hm
  rw [← e1, ← e2, h]

lemma pad2_len : ∀ n < 100, (pad2 n).length = 2 := by decide

lemma pad4_len (n : Nat) (hn : n < 10000) : (pad4 n).length = 4 := by
  unfold pad4
  rw [String.length_append, pad2_len _ (by omega), pad2_len _ (Nat.mod_lt _ (by norm_num))]

lemma pad4_inj {n m : Nat} (hn : n < 10000) (hm : m < 10000) (h : pad4 n = pad4 m) :
    n = m := by
  have hdn : n / 100 < 100 := by omega
  have hdm : m / 100 < 100 := by omega
  have hrn : n % 100 < 100 := Nat.mod_lt _ (by norm_num)
  have hrm : m % 100 < 100 := Nat.mod_lt _ (by norm_num)
  have hd : (pad2 (n / 100)).data ++ (pad2 (n % 100)).data =
      (pad2 (m / 100)).data ++ (pad2 (m % 100)).data := congrArg String.data h
  have hlen : (pad2 (n / 100)).data.length = (pad2 (m / 100)).data.length := by
    show (pad2 (n / 100)).length = (pad2 (m / 100)).length
    rw [pad2_len _ hdn, pad2_len _ hdm]
  obtain ⟨e1, e2⟩ := List.append_inj hd hlen
  have q1 : n / 100 = m / 100 := pad2_inj hdn hdm (String.ext e1)
  have q2 : n % 100 = m % 100 := pad2_inj hrn hrm (String.ext e2)
  omega

lemma data_append (a b : String) : (a ++ b).data = a.data ++ b.data := rfl

lemma fmtYMDHMS_inj {t1 t2 : DateTime} (h1 : validDT t1) (h2 : validDT t2)
    (h : fmtYMDHMS t1 = fmtYMDHMS t2) :
    t1.year = t2.year ∧ t1.month = t2.month ∧ t1.day = t2.day ∧
      t1.hour = t2.hour ∧ t1.minute = t2.minute ∧ t1.second = t2.second := by
  obtain ⟨hy1, hmo1, hd1, hh1, hmi1, hs1⟩ := h1
  obtain ⟨hy2, hmo2, hd2, hh2, hmi2, hs2⟩ := h2
  have hd := congrArg String.data h
  unfold fmtYMDHMS at hd
  simp only [data_append, List.append_assoc] at hd
  obtain ⟨ey, hd⟩ := List.append_inj hd (by
    show (pad4 t1.year).length = (pad4 t2.year).length
    rw [pad4_len _ hy1, pad4_len _ hy2])
  obtain ⟨emo, hd⟩ := List.append_inj hd (by
    show (pad2 t1.month).length = (pad2 t2.month).length
    rw [pad2_len _ hmo1, pad2_len _ hmo2])
  obtain ⟨ed, hd⟩ := List.append_inj hd (by
    show (pad2 t1.day).length = (pad2 t2.day).length
    rw [pad2_len _ hd1, pad2_len _ hd2])
  obtain ⟨_, hd⟩ := List.append_inj hd (rfl :
    ("_" : String).data.length = ("_" : String).data.length)
  obtain ⟨eh, hd⟩ := List.append_inj hd (by
    show (pad2 t1.hour).length = (pad2 t2.hour).length
    rw [pad2_len _ hh1, pad2_len _ hh2])
  obtain ⟨emi, es⟩ := List.append_inj hd (by
    show (pad2 t1.minute).length = (pad2 t2.minute).length
    rw [pad2_len _ hmi1, pad2_len _ hmi2])
  exact ⟨pad4_inj hy1 hy2 (String.ext ey), pad2_inj hmo1 hmo2 (String.ext emo),
    pad2_inj hd1 hd2 (String.ext ed), pad2_inj hh1 hh2 (String.ext eh),
    pad2_inj hmi1 hmi2 (String.ext emi), pad2_inj hs1 hs2 (String.ext es)⟩

lemma fmtYMDHMS_len (t : DateTime) (hv : validDT t) : (fmtYMDHMS t).length = 15 := by
  obtain ⟨hy, hmo, hd, hh, hmi, hs⟩ := hv
  unfold fmtYMDHMS
  rw [String.length_append, String.length_append, String.length_append,
    String.length_append, String.length_append, String.length_append,
    pad4_len _ hy, pad2_len _ hmo, pad2_len _ hd, pad2_len _ hh,
    pad2_len _ hmi, pad2_len _ hs]
  rfl

lemma archiveFileName_fmt_eq {tenantPk : Option Nat} {btype : String} {t1 t2 : DateTime}
    (h1 : validDT t1) (h2 : validDT t2)
    (h : archiveFileName tenantPk btype t1 = archiveFileName tenantPk btype t2) :
    fmtYMDHMS t1 = fmtYMDHMS t2 := by
  have hlen : (fmtYMDHMS t1).data.length = (fmtYMDHMS t2).data.length := by
    show (fmtYMDHMS t1).length = (fmtYMDHMS t2).length
    rw [fmtYMDHMS_len _ h1, fmtYMDHMS_len _ h2]
  cases tenantPk with
  | some pk =>
    have hd := congrArg String.data h
    unfold archiveFileName at hd
    simp only [data_append, List.append_assoc] at hd
    have hd := List.append_cancel_left hd
    have hd := List.append_cancel_left hd
    have hd := List.append_cancel_left hd
    have hd := List.append_cancel_left hd
    have hd := List.append_cancel_left hd
    exact String.ext (List.append_inj hd hlen).1
  | none =>
    have hd := congrArg String.data h
    unfold archiveFileName at hd
    simp only [data_append, List.append_assoc] at hd
    have hd := List.append_cancel_left hd
    have hd := List.append_cancel_left hd
    have hd := List.append_cancel_left hd
    exact String.ext (List.append_inj hd hlen).1

/-- Claim C7, counterexample to the claim as stated: two finish
timestamps that differ (here only in the microsecond component, second
instant later than the first) produce identical archive names for the
same tenant and type, because `strftime("%Y%m%d_%H%M%S")` drops
sub-second precision. -/
theorem archive_name_subsecond_collision :
    (⟨2025, 3, 4, 5, 6, 7, 1⟩ : DateTime) ≠ (⟨2025, 3, 4, 5, 6, 7, 2⟩ : DateTime) ∧
    dtLe ⟨2025, 3, 4, 5, 6, 7, 1⟩ ⟨2025, 3, 4, 5, 6, 7, 2⟩ ∧
    archiveFileName (some 1) "all_models" ⟨2025, 3, 4, 5, 6, 7, 1⟩ =
      archiveFileName (some 1) "all_models" ⟨2025, 3, 4, 5, 6, 7, 2⟩ := by
  refine ⟨by decide, by decide, ?_⟩
  rfl

/-- Claim C7 (amended): the archive name is
`backup_<tenant_pk>_<type>_<YYYYMMDD_HHMMSS>.zip` when a tenant is set
and `backup_<type>_<YYYYMMDD_HHMMSS>.zip` otherwise, and two runs with
the same tenant and type whose finish timestamps differ at whole-second
resolution (in any of the year/month/day/hour/minute/second components)
never collide in archive name; timestamps differing only in sub-second
precision do collide (see the counterexample). -/
theorem archive_name_format_and_unique (pk : Nat) (btype : String) (t1 t2 : DateTime)
    (h1 : validDT t1) (h2 : validDT t2)
    (hne : t1.year ≠ t2.year ∨ t1.month ≠ t2.month ∨ t1.day ≠ t2.day ∨
      t1.hour ≠ t2.hour ∨ t1.minute ≠ t2.minute ∨ t1.second ≠ t2.second) :
    (archiveFileName (some pk) btype t1 =
      "backup_" ++ toString pk ++ "_" ++ btype ++ "_" ++ fmtYMDHMS t1 ++ ".zip") ∧
    (archiveFileName none btype t1 =
      "backup_" ++ btype ++ "_" ++ fmtYMDHMS t1 ++ ".zip") ∧
    archiveFileName (some pk) btype t1 ≠ archiveFileName (some pk) btype t2 ∧
    archiveFileName none btype t1 ≠ archiveFileName none btype t2 := by
  refine ⟨rfl, rfl, ?_, ?_⟩
  · intro h
    rcases fmtYMDHMS_inj h1 h2 (archiveFileName_fmt_eq h1 h2 h) with ⟨e1, e2, e3, e4, e5, e6⟩
    rcases hne with hne | hne | hne | hne | hne | hne
    · exact hne e1
    · exact hne e2
    · exact hne e3
    · exact hne e4
    · exact hne e5
    · exact hne e6
  · intro h
    rcases fmtYMDHMS_inj h1 h2 (archiveFileName_fmt_eq h1 h2 h) with ⟨e1, e2, e3, e4, e5, e6⟩
    rcases hne with hne | hne | hne | hne | hne | hne
    · exact hne e1
    · exact hne e2
    · exact hne e3
    · exact hne e4
    · exact hne e5
    · exact hne e6

theorem archive_name_format_and_unique_witness :
    (validDT ⟨2025, 3, 4, 5, 6, 7, 0⟩ ∧ validDT ⟨2025, 3, 4, 5, 6, 8, 0⟩ ∧
      (⟨2025, 3, 4, 5, 6, 7, 0⟩ : DateTime).second ≠
        (⟨2025, 3, 4, 5, 6, 8, 0⟩ : DateTime).second) ∧
    (archiveFileName (some 7) "all_models" ⟨2025, 3, 4, 5, 6, 7, 0⟩ =
      "backup_" ++ toString 7 ++ "_" ++ "all_models" ++ "_" ++
        fmtYMDHMS ⟨2025, 3, 4, 5, 6, 7, 0⟩ ++ ".zip") ∧
    (archiveFileName none "all_models" ⟨2025, 3, 4, 5, 6, 7, 0⟩ =
      "backup_" ++ "all_models" ++ "_" ++ fmtYMDHMS ⟨2025, 3, 4, 5, 6, 7, 0⟩ ++ ".zip") ∧
    archiveFileName (some 7) "all_models" ⟨2025, 3, 4, 5, 6, 7, 0⟩ ≠
      archiveFileName (some 7) "all_models" ⟨2025, 3, 4, 5, 6, 8, 0⟩ ∧
    archiveFileName none "all_models" ⟨2025, 3, 4, 5, 6, 7, 0⟩ ≠
      archiveFileName none "all_models" ⟨2025, 3, 4, 5, 6, 8, 0⟩ := by
  refine ⟨⟨by decide, by decide, by decide⟩, ?_⟩
  exact archive_name_format_and_unique 7 "all_models"
    ⟨2025, 3, 4, 5, 6, 7, 0⟩ ⟨2025, 3, 4, 5, 6, 8, 0⟩
    (by decide) (by decide) (by decide)

/-- Environment with one resolvable model `shop.product` whose `image`
field is an image field and whose other fields are plain, and a
configured `MEDIA_URL` of `/media/`. -/
def extractEnvShop : ExtractEnv :=
  { getModel := fun a b =>
      if a = "shop" then if b = "product" then some "shop.product" else none else none
    getField := fun m f =>
      if m = "shop.product" then
        if f = "image" then some .imageField else some .otherField
      else none
    urlparsePath := fun u => u
    mediaUrl := some "/media/" }

/-- A one-record fixture referencing `/media/a.png` through an image
field. -/
def fixtureShop : Json :=
  Json.arr [Json.obj [("model", Json.str "shop.product"),
    ("fields", Json.obj [("image", Json.str "/media/a.png"),
      ("title", Json.str "hello")])]]

theorem extract_media_files_sound_and_dedup_witness :
    (extract_media_files_from_fixture extractEnvShop fixtureShop).Nodup ∧
    "a.png" ∈ extract_media_files_from_fixture extractEnvShop fixtureShop ∧
    (∃ records, fixtureShop = Json.arr records ∧
      fieldRefProvenance extractEnvShop records "a.png") := by
  have h := extract_media_files_sound_and_dedup extractEnvShop fixtureShop
  exact ⟨h.1, by decide, h.2 "a.png" (by decide)⟩

/-- Clock instant used to instantiate the archive theorems. -/
def nowW : DateTime := ⟨2025, 3, 4, 5, 6, 7, 0⟩

theorem create_backup_archive_layout_witness :
    (((create_backup_archive "/tmp/stage/backup.json" "/tmp/stage"
        "backup_7_all_models_20250304_050607" ["x/y.png", "z.txt"] nowW).2).head? =
      some ("backup.json", .fromFile "/tmp/stage/backup.json")) ∧
    ("x/y.png" ∈ ["x/y.png", "z.txt"]) ∧
    (("media/" ++ "x/y.png",
        EntryContent.fromFile ("/tmp/stage" ++ "/media/" ++ "x/y.png")) ∈
      (create_backup_archive "/tmp/stage/backup.json" "/tmp/stage"
        "backup_7_all_models_20250304_050607" ["x/y.png", "z.txt"] nowW).2) ∧
    (((create_backup_archive "/tmp/stage/backup.json" "/tmp/stage"
        "backup_7_all_models_20250304_050607" ["x/y.png", "z.txt"] nowW).2).getLast? =
      some ("backup_manifest.json", .manifestText
        { backup_type := "data_with_media", created_at := isoformat nowW,
          json_file := "backup.json", media_directory := "media/",
          format_version := "1.0" })) ∧
    ((create_backup_archive "/tmp/stage/backup.json" "/tmp/stage"
        "backup_7_all_models_20250304_050607" ["x/y.png", "z.txt"] nowW).1 =
      "/tmp/stage" ++ "/" ++ "backup_7_all_models_20250304_050607" ++ ".zip") := by
  have h := create_backup_archive_layout "/tmp/stage/backup.json" "/tmp/stage"
    "backup_7_all_models_20250304_050607" ["x/y.png", "z.txt"] nowW
  exact ⟨h.1, by decide, h.2.1 "x/y.png" (by decide), h.2.2.1, h.2.2.2⟩

theorem manifest_backup_type_constant_witness :
    ((backupManifest nowW).backup_type = "data_with_media") ∧
    (("backup_manifest.json", EntryContent.manifestText (backupManifest nowW)) ∈
      (create_backup_archive "/tmp/stage/backup.json" "/tmp/stage"
        "backup_7_all_models_20250304_050607" ["x/y.png"] nowW).2) ∧
    ((backupManifest nowW).backup_type = "data_with_media") := by
  have h := manifest_backup_type_constant "/tmp/stage/backup.json" "/tmp/stage"
    "backup_7_all_models_20250304_050607" ["x/y.png"] nowW
  exact ⟨h.1, by decide, h.2 (backupManifest nowW) (by decide)⟩
